import Mathlib

/-!
Verification of the n8n-openai-cli-gateway core against its specification.

The TypeScript source is shallowly embedded: pure functions become Lean
functions over `String` / `List`, JavaScript numbers used as integral
timestamps and counters become `Nat`, fallible code returns `Except` /
`Option`.  JavaScript strings are modelled as Lean `String`s (sequences of
characters); the ASCII fragments of the JS regex character classes are used,
which covers every string the gateway's own messages and the spec's examples
use.
-/

set_option autoImplicit false

namespace Gateway

/-! ## Basic string utilities shared by the embedded modules -/

/-- The JS `\s` class restricted to ASCII: space, tab, LF, CR, VT, FF. -/
def isJsSpace (c : Char) : Bool :=
  c = ' ' || c = '\t' || c = '\n' || c = '\x0d' || c = '\x0b' || c = '\x0c'

/-- `String.prototype.trim` on the ASCII fragment. -/
def jsTrimList (cs : List Char) : List Char :=
  ((cs.dropWhile isJsSpace).reverse.dropWhile isJsSpace).reverse

def jsTrim (s : String) : String :=
  ⟨jsTrimList s.data⟩

/-- ASCII lower-casing, as `String.prototype.toLowerCase` acts on ASCII. -/
def jsToLower (s : String) : String :=
  ⟨s.data.map Char.toLower⟩

/-- `String.prototype.includes needle`. -/
def strContains (s pat : String) : Bool :=
  s.data.tails.any (fun t => pat.data.isPrefixOf t)

/-- `source.includes(needle)` for any needle in the list (helper `includesAny`). -/
def includesAny (source : String) (needles : List String) : Bool :=
  needles.any (fun n => strContains source n)

/-- Split a character list at every LF, keeping empty pieces. -/
def splitLinesList : List Char → List (List Char)
  | [] => [[]]
  | c :: rest =>
    match splitLinesList rest with
    | [] => []
    | l :: ls => if c = '\n' then [] :: l :: ls else (c :: l) :: ls

/-- Split on the JS regex `/\r?\n/`: split at every LF and drop one CR
    directly before it. -/
def splitLines (s : String) : List String :=
  (splitLinesList s.data).map (fun piece =>
    if piece.getLast? = some '\x0d' then ⟨piece.dropLast⟩ else ⟨piece⟩)

/-! ## Model-health tracker: failure classification (`model-stats.ts`) -/

inductive ModelFailureKind where
  | rate_limited
  | capacity_exhausted
  | quota_exhausted
  | timeout
  | auth
  | provider_exit
  | config
  | invalid_model
  | unknown
  deriving DecidableEq, Repr

/-- `MAX_FAILURE_MESSAGE_CHARS` in `model-stats.ts`. -/
def MAX_FAILURE_MESSAGE_CHARS : Nat := 1200

/-- `truncateFailureMessage` from `model-stats.ts`. -/
def truncateFailureMessage (message : String) : String :=
  let compact := jsTrim message
  if compact.data.length ≤ MAX_FAILURE_MESSAGE_CHARS then compact
  else ⟨compact.data.take MAX_FAILURE_MESSAGE_CHARS⟩ ++ ("...")

/-- `classifyFailure` from `model-stats.ts`, on an error message string
    (`getErrorMessage` of an `Error` is its message). Returns the kind. -/
def classifyFailure (errorMessage : String) : ModelFailureKind :=
  let message := truncateFailureMessage errorMessage
  let normalized := jsToLower message
  if includesAny normalized [("unknown model:")] then .invalid_model
  else if includesAny normalized
      [("fallback model not found"), ("duplicate model id"), ("does not expose model")] then
    .config
  else if includesAny normalized
      [("insufficient_quota"), ("quota"), ("billing"), ("credit balance"), ("out of credits")] then
    .quota_exhausted
  else if includesAny normalized
      [("resource_exhausted"), ("capacity"), ("model exhausted"), ("overloaded"),
       ("no available"), ("temporarily unavailable")] then
    .capacity_exhausted
  else if includesAny normalized
      [("rate limit"), ("too many requests"), ("status code: 429"), ("http 429"),
       ("retry later")] then
    .rate_limited
  else if includesAny normalized [("timed out"), ("timeout")] then .timeout
  else if includesAny normalized
      [("unauthorized"), ("forbidden"), ("invalid api key"), ("authentication"),
       ("not authenticated"), ("permission denied"), ("access denied")] then
    .auth
  else if includesAny normalized
      [("provider command exited with code"), ("provider command")] then
    .provider_exit
  else .unknown

/-- The classifier's substring rules as an ordered list, following the spec's
    words: "Substring rules (checked in this order, first match wins)". -/
def failureRules : List (List String × ModelFailureKind) :=
  [([("unknown model:")], .invalid_model),
   ([("fallback model not found"), ("duplicate model id"), ("does not expose model")], .config),
   ([("insufficient_quota"), ("quota"), ("billing"), ("credit balance"), ("out of credits")],
    .quota_exhausted),
   ([("resource_exhausted"), ("capacity"), ("model exhausted"), ("overloaded"),
     ("no available"), ("temporarily unavailable")], .capacity_exhausted),
   ([("rate limit"), ("too many requests"), ("status code: 429"), ("http 429"),
     ("retry later")], .rate_limited),
   ([("timed out"), ("timeout")], .timeout),
   ([("unauthorized"), ("forbidden"), ("invalid api key"), ("authentication"),
     ("not authenticated"), ("permission denied"), ("access denied")], .auth),
   ([("provider command exited with code"), ("provider command")], .provider_exit)]

/-- Spec-side description of the classifier: lowercase the message and return
    the kind of the first rule with a matching substring, else `unknown`. -/
def firstMatchKind (errorMessage : String) : ModelFailureKind :=
  let normalized := jsToLower (truncateFailureMessage errorMessage)
  match failureRules.find? (fun r => includesAny normalized r.1) with
  | some r => r.2
  | none => .unknown

/-! ## Model-health tracker: cooldown computation (`model-stats.ts`) -/

/-- The fields of `MutableModelStats` that `computeCooldown` reads.
    Timestamps are epoch milliseconds; `lastFailureAtMs = 0` models the
    JS falsy/absent timestamp. -/
structure CooldownStats where
  lastFailureKind : Option ModelFailureKind
  lastFailureAtMs : Nat
  consecutiveFailures : Nat
  consecutiveRateLimitedFailures : Nat
  consecutiveCapacityExhaustedFailures : Nat
  consecutiveQuotaExhaustedFailures : Nat

/-- `baseCooldownSecondsByKind[kind] || 0` from `computeCooldown`. -/
def baseCooldownSecondsByKind : ModelFailureKind → Nat
  | .rate_limited => 60
  | .capacity_exhausted => 120
  | .quota_exhausted => 3600
  | .timeout => 30
  | .auth => 600
  | _ => 0

/-- The consecutive counter `computeCooldown` selects for a failure kind. -/
def consecutiveForKind (stat : CooldownStats) (kind : ModelFailureKind) : Nat :=
  match kind with
  | .rate_limited => stat.consecutiveRateLimitedFailures
  | .capacity_exhausted => stat.consecutiveCapacityExhaustedFailures
  | .quota_exhausted => stat.consecutiveQuotaExhaustedFailures
  | _ => stat.consecutiveFailures

/-- `computeCooldown` from `model-stats.ts`; returns `cooldownSeconds`.
    `Nat` subtraction models `Math.max(0, ...)`; `(r + 999) / 1000` models
    `Math.ceil(r / 1000)` on a non-negative integer. -/
def computeCooldown (stat : CooldownStats) (now : Nat) : Nat :=
  match stat.lastFailureKind with
  | none => 0
  | some kind =>
    if stat.lastFailureAtMs = 0 then 0
    else
      let base := baseCooldownSecondsByKind kind
      if base = 0 then 0
      else
        let multiplier := min 8 (max 1 (consecutiveForKind stat kind))
        let cooldownMs := base * 1000 * multiplier
        let remainingMs := stat.lastFailureAtMs + cooldownMs - now
        (remainingMs + 999) / 1000

/-! ## Template engine (`template.ts`, `shell.ts`) -/

/-- The left and right brace characters of the `\x7b\x7b name \x7d\x7d`
    placeholder syntax. -/
def lbrace : Char := Char.ofNat 123

def rbrace : Char := Char.ofNat 125

/-- The single- and double-quote characters used by `shellEscape`. -/
def squote : Char := Char.ofNat 39

def dquote : Char := Char.ofNat 34

/-- `shellEscape` from `shell.ts`: empty becomes a pair of single quotes,
    otherwise wrap in single quotes with every single quote replaced by the
    quote, double-quote, quote, double-quote, quote idiom. -/
def shellEscape (str : String) : String :=
  if str = ("") then ⟨[squote, squote]⟩
  else
    ⟨[squote] ++
      ((str.data.map (fun c =>
        if c = squote then [squote, dquote, squote, dquote, squote] else [c])).flatten) ++
      [squote]⟩

/-- The character class `[a-zA-Z0-9_]` of `TEMPLATE_REGEX`. -/
def isWordChar (c : Char) : Bool :=
  c.isAlphanum || c == '_'

/-- `USER_CONTROLLED_VARS` from `template.ts`. -/
def USER_CONTROLLED_VARS : List String := [("prompt")]

/-- `TemplateOptions` from `template.ts`. -/
structure TemplateOptions where
  escapeShell : Bool

/-- The destructuring default `const { escapeShell = true } = options`. -/
def defaultTemplateOptions : TemplateOptions :=
  { escapeShell := true }

/-- `vars[key] ?? ""`: property lookup in the variable record. -/
def lookupVar (vars : List (String × String)) (key : String) : String :=
  match vars.find? (fun p => p.1 = key) with
  | some p => p.2
  | none => ("")

/-- Try to match `TEMPLATE_REGEX` (`\x7b\x7b\s*([a-zA-Z0-9_]+)\s*\x7d\x7d`)
    at the head of the character list; on success return the captured name and
    the characters after the match.  Maximal munch on the `\s*` and
    `[a-zA-Z0-9_]+` pieces coincides with the regex because the three
    character classes involved are pairwise disjoint from the closing brace. -/
def matchPlaceholder (cs : List Char) : Option (String × List Char) :=
  match cs with
  | c1 :: c2 :: rest =>
    if c1 = lbrace ∧ c2 = lbrace then
      let afterWs := rest.dropWhile isJsSpace
      let nameChars := afterWs.takeWhile isWordChar
      if nameChars.isEmpty then none
      else
        let afterWs2 := (afterWs.dropWhile isWordChar).dropWhile isJsSpace
        match afterWs2 with
        | d1 :: d2 :: rest2 =>
          if d1 = rbrace ∧ d2 = rbrace then some (⟨nameChars⟩, rest2) else none
        | _ => none
    else none
  | _ => none

/-- The global-replace scan of `String.prototype.replace(TEMPLATE_REGEX, ...)`:
    left to right, non-overlapping, substituted text is not rescanned.  Each
    step consumes at least one character, so `fuel = cs.length` never runs
    out. -/
def templateScan (subst : String → String) : Nat → List Char → List Char
  | 0, cs => cs
  | _ + 1, [] => []
  | fuel + 1, c :: rest =>
    match matchPlaceholder (c :: rest) with
    | some (name, after) => (subst name).data ++ templateScan subst fuel after
    | none => c :: templateScan subst fuel rest

/-- `applyTemplate` from `template.ts`. -/
def applyTemplate (value : String) (vars : List (String × String))
    (options : TemplateOptions) : String :=
  ⟨templateScan
    (fun key =>
      let rawValue := lookupVar vars key
      if options.escapeShell && USER_CONTROLLED_VARS.contains key then shellEscape rawValue
      else rawValue)
    value.data.length value.data⟩

/-! ## JSON values (the dynamic JS values the provider layer manipulates)

JS numbers are kept as their source lexeme: no claim compares re-formatted
numbers, and this keeps the model exact for integral values. -/

inductive JsonValue where
  | null
  | bool (b : Bool)
  | num (raw : String)
  | str (s : String)
  | arr (items : List JsonValue)
  | obj (fields : List (String × JsonValue))
  deriving Inhabited

/-- `typeof v === "object" && v` — JSON arrays and objects (JS arrays have
    `typeof` object and are truthy). -/
def isObjLike : JsonValue → Bool
  | .arr _ => true
  | .obj _ => true
  | _ => false

/-- JS property read `v[key]` for JSON values: `none` models `undefined`. -/
def jsGetField : JsonValue → String → Option JsonValue
  | .obj fields, key => (fields.find? (fun p => p.1 = key)).map Prod.snd
  | _, _ => none

/-- JS property write `out[key] = v`: an existing key keeps its position and
    gets the new value, a new key is appended (insertion order). -/
def jsSetField (fields : List (String × JsonValue)) (key : String) (v : JsonValue) :
    List (String × JsonValue) :=
  if fields.any (fun p => p.1 = key) then
    fields.map (fun p => if p.1 = key then (key, v) else p)
  else fields ++ [(key, v)]

/-! ### `JSON.parse`, as a fuel-based recursive-descent parser -/

/-- JSON (RFC 8259) insignificant whitespace. -/
def isJsonWs (c : Char) : Bool :=
  c = ' ' || c = '\t' || c = '\n' || c = '\x0d'

def skipWs (cs : List Char) : List Char :=
  cs.dropWhile isJsonWs

def isHexDigit (c : Char) : Bool :=
  c.isDigit || ('a' ≤ c && c ≤ 'f') || ('A' ≤ c && c ≤ 'F')

def hexVal (c : Char) : Nat :=
  if c.isDigit then c.toNat - 48
  else if 'a' ≤ c && c ≤ 'f' then c.toNat - 87
  else c.toNat - 55

/-- Parse the body of a JSON string after the opening quote; returns the
    decoded characters and the remainder after the closing quote. -/
def parseStringBody : List Char → Option (List Char × List Char)
  | [] => none
  | c :: rest =>
    if c = dquote then some ([], rest)
    else if c = '\\' then
      match rest with
      | [] => none
      | e :: rest2 =>
        if e = dquote then (parseStringBody rest2).map (fun p => (dquote :: p.1, p.2))
        else if e = '\\' then (parseStringBody rest2).map (fun p => ('\\' :: p.1, p.2))
        else if e = '/' then (parseStringBody rest2).map (fun p => ('/' :: p.1, p.2))
        else if e = 'b' then (parseStringBody rest2).map (fun p => ('\x08' :: p.1, p.2))
        else if e = 'f' then (parseStringBody rest2).map (fun p => ('\x0c' :: p.1, p.2))
        else if e = 'n' then (parseStringBody rest2).map (fun p => ('\n' :: p.1, p.2))
        else if e = 'r' then (parseStringBody rest2).map (fun p => ('\x0d' :: p.1, p.2))
        else if e = 't' then (parseStringBody rest2).map (fun p => ('\t' :: p.1, p.2))
        else if e = 'u' then
          match rest2 with
          | h1 :: h2 :: h3 :: h4 :: rest3 =>
            if isHexDigit h1 && isHexDigit h2 && isHexDigit h3 && isHexDigit h4 then
              let code := ((hexVal h1 * 16 + hexVal h2) * 16 + hexVal h3) * 16 + hexVal h4
              (parseStringBody rest3).map (fun p => (Char.ofNat code :: p.1, p.2))
            else none
          | _ => none
        else none
    else if c.toNat < 32 then none
    else (parseStringBody rest).map (fun p => (c :: p.1, p.2))

/-- Lex a JSON number starting at the head; returns the lexeme and the rest. -/
def lexNumber (cs : List Char) : Option (List Char × List Char) :=
  let (neg, cs1) :=
    match cs with
    | '-' :: rest => (['-'], rest)
    | _ => (([] : List Char), cs)
  let intPart := cs1.takeWhile Char.isDigit
  let cs2 := cs1.dropWhile Char.isDigit
  if intPart.isEmpty then none
  else if intPart.length > 1 ∧ intPart.head? = some '0' then none
  else
    let (frac, cs3) :=
      match cs2 with
      | '.' :: rest =>
        let ds := rest.takeWhile Char.isDigit
        if ds.isEmpty then (([] : List Char), cs2)
        else ('.' :: ds, rest.dropWhile Char.isDigit)
      | _ => (([] : List Char), cs2)
    if cs3.head? = some '.' then none
    else
      match cs3 with
      | e :: rest =>
        if e = 'e' ∨ e = 'E' then
          let (sign, rest2) :=
            match rest with
            | s :: r2 => if s = '+' ∨ s = '-' then ([s], r2) else (([] : List Char), rest)
            | [] => (([] : List Char), rest)
          let ds := rest2.takeWhile Char.isDigit
          if ds.isEmpty then none
          else some (neg ++ intPart ++ frac ++ (e :: (sign ++ ds)), rest2.dropWhile Char.isDigit)
        else some (neg ++ intPart ++ frac, cs3)
      | [] => some (neg ++ intPart ++ frac, cs3)

/-- Resolve duplicate object keys as JS property definition does: position of
    the first occurrence, value of the last. -/
def dedupFields (raw : List (String × JsonValue)) : List (String × JsonValue) :=
  raw.foldl (fun acc p => jsSetField acc p.1 p.2) []

mutual

/-- One JSON value (leading whitespace skipped), returning the remainder. -/
def parseValue : Nat → List Char → Option (JsonValue × List Char)
  | 0, _ => none
  | fuel + 1, cs =>
    match skipWs cs with
    | [] => none
    | c :: rest =>
      if c = dquote then
        (parseStringBody rest).map (fun p => (.str ⟨p.1⟩, p.2))
      else if c = '[' then
        match skipWs rest with
        | ']' :: rest2 => some (.arr [], rest2)
        | _ => (parseElems fuel rest).map (fun p => (.arr p.1, p.2))
      else if c = lbrace then
        match skipWs rest with
        | r :: rest2 =>
          if r = rbrace then some (.obj [], rest2)
          else (parseMembers fuel rest).map (fun p => (.obj (dedupFields p.1), p.2))
        | [] => none
      else if c = 't' then
        match rest with
        | 'r' :: 'u' :: 'e' :: rest2 => some (.bool true, rest2)
        | _ => none
      else if c = 'f' then
        match rest with
        | 'a' :: 'l' :: 's' :: 'e' :: rest2 => some (.bool false, rest2)
        | _ => none
      else if c = 'n' then
        match rest with
        | 'u' :: 'l' :: 'l' :: rest2 => some (.null, rest2)
        | _ => none
      else
        (lexNumber (c :: rest)).map (fun p => (.num ⟨p.1⟩, p.2))

/-- Array elements after `[`, up to and including `]`. -/
def parseElems : Nat → List Char → Option (List JsonValue × List Char)
  | 0, _ => none
  | fuel + 1, cs =>
    match parseValue fuel cs with
    | none => none
    | some (v, rest) =>
      match skipWs rest with
      | ',' :: rest2 => (parseElems fuel rest2).map (fun p => (v :: p.1, p.2))
      | ']' :: rest2 => some ([v], rest2)
      | _ => none

/-- Object members after the opening brace, up to and including the closing
    brace, in textual order (duplicate keys kept; the object constructor
    resolves them). -/
def parseMembers : Nat → List Char → Option (List (String × JsonValue) × List Char)
  | 0, _ => none
  | fuel + 1, cs =>
    match skipWs cs with
    | c :: rest =>
      if c = dquote then
        match parseStringBody rest with
        | none => none
        | some (key, rest2) =>
          match skipWs rest2 with
          | ':' :: rest3 =>
            match parseValue fuel rest3 with
            | none => none
            | some (v, rest4) =>
              match skipWs rest4 with
              | ',' :: rest5 =>
                (parseMembers fuel rest5).map (fun p => ((⟨key⟩, v) :: p.1, p.2))
              | r :: rest5 =>
                if r = rbrace then some ([(⟨key⟩, v)], rest5) else none
              | [] => none
          | _ => none
      else none
    | [] => none

end

/-- `JSON.parse`: parse one value and require only trailing whitespace. -/
def jsonParse (s : String) : Option JsonValue :=
  match parseValue (s.data.length + 1) s.data with
  | some (v, rest) => if skipWs rest = [] then some v else none
  | none => none

/-! ### `JSON.stringify` -/

/-- Escape one character per `JSON.stringify` string quoting. -/
def escapeJsonChar (c : Char) : List Char :=
  if c = dquote then ['\\', dquote]
  else if c = '\\' then ['\\', '\\']
  else if c = '\x08' then ['\\', 'b']
  else if c = '\x0c' then ['\\', 'f']
  else if c = '\n' then ['\\', 'n']
  else if c = '\x0d' then ['\\', 'r']
  else if c = '\t' then ['\\', 't']
  else if c.toNat < 32 then
    let hx := fun (n : Nat) =>
      if n < 10 then Char.ofNat (48 + n) else Char.ofNat (87 + (n - 10))
    ['\\', 'u', '0', '0', hx (c.toNat / 16), hx (c.toNat % 16)]
  else [c]

def escapeJsonString (s : String) : String :=
  ⟨[dquote] ++ (s.data.map escapeJsonChar).flatten ++ [dquote]⟩

mutual

def stringifyValue : JsonValue → String
  | .null => ("null")
  | .bool true => ("true")
  | .bool false => ("false")
  | .num raw => raw
  | .str s => escapeJsonString s
  | .arr items => ("[") ++ stringifyArr items ++ ("]")
  | .obj fields => ⟨[lbrace]⟩ ++ stringifyObj fields ++ ⟨[rbrace]⟩

def stringifyArr : List JsonValue → String
  | [] => ("")
  | [v] => stringifyValue v
  | v :: rest => stringifyValue v ++ (",") ++ stringifyArr rest

def stringifyObj : List (String × JsonValue) → String
  | [] => ("")
  | [(k, v)] => escapeJsonString k ++ (":") ++ stringifyValue v
  | (k, v) :: rest =>
    escapeJsonString k ++ (":") ++ stringifyValue v ++ (",") ++ stringifyObj rest

end

/-! ## Provider result model (`types.ts`) -/

inductive FinishReason where
  | stop
  | tool_calls
  | length
  | error
  deriving DecidableEq, Repr

structure ProviderToolCall where
  id : String
  name : String
  arguments : String
  deriving DecidableEq, Repr

/-- `ProviderResult` (the diagnostics-only `raw` blob is omitted). -/
structure ProviderResult where
  outputText : String
  toolCalls : List ProviderToolCall
  finishReason : FinishReason
  deriving DecidableEq, Repr

inductive CommandOutputMode where
  | text
  | text_plain
  | text_contract_final_line
  | json_contract
  deriving DecidableEq, Repr

/-! ## Tool-name normalization (`cli-provider.ts`) -/

def isCamelLower (c : Char) : Bool :=
  ('a' ≤ c && c ≤ 'z') || c.isDigit

def isAsciiUpper (c : Char) : Bool :=
  'A' ≤ c && c ≤ 'Z'

/-- `replace(/([a-z0-9])([A-Z])/g, "$1_$2")`: the two classes are disjoint, so
    inserting before each upper case letter preceded by a lower/digit equals
    the regex's non-overlapping global replacement. -/
def camelSplit : List Char → List Char
  | [] => []
  | [c] => [c]
  | c1 :: c2 :: rest =>
    if isCamelLower c1 && isAsciiUpper c2 then c1 :: '_' :: camelSplit (c2 :: rest)
    else c1 :: camelSplit (c2 :: rest)

def isSepChar (c : Char) : Bool :=
  isJsSpace c || c = '-' || c = '.' || c = '/'

/-- Replace each maximal run of `p`-characters with a single underscore
    (the `inRun` flag tracks whether the previous character was in a run). -/
def squashRuns (p : Char → Bool) : List Char → Bool → List Char
  | [], _ => []
  | c :: rest, inRun =>
    if p c then
      if inRun then squashRuns p rest true else '_' :: squashRuns p rest true
    else c :: squashRuns p rest false

/-- `normalizeToolName` from `cli-provider.ts`: trim, split camelCase, map
    space/hyphen/dot/slash runs and other non-word characters to underscores,
    collapse runs, trim edge underscores, lowercase. -/
def normalizeToolName (name : String) : String :=
  let s1 := jsTrimList name.data
  let s2 := camelSplit s1
  let s3 := squashRuns isSepChar s2 false
  let s4 := s3.map (fun c => if isWordChar c then c else '_')
  let s5 := squashRuns (fun c => c = '_') s4 false
  let s6 := ((s5.dropWhile (fun c => c = '_')).reverse.dropWhile (fun c => c = '_')).reverse
  ⟨s6.map Char.toLower⟩

def normalizeArgumentKey (name : String) : String :=
  normalizeToolName name

/-! ## Dynamic-value helpers for the tool-call walker -/

/-- String-typed property, `typeof v[key] === "string"`. -/
def strField? (v : JsonValue) (key : String) : Option String :=
  match jsGetField v key with
  | some (.str s) => some s
  | _ => none

/-- `(typeof v[key] === "string" && v[key]) || ...`: a string property that is
    also truthy (non-empty). -/
def nonEmptyStrField? (v : JsonValue) (key : String) : Option String :=
  match strField? v key with
  | some s => if s = ("") then none else some s
  | none => none

/-- `v[k1] ?? v[k2] ?? ...`: first property that exists and is not null. -/
def coalesceField (v : JsonValue) : List String → Option JsonValue
  | [] => none
  | k :: rest =>
    match jsGetField v k with
    | some .null => coalesceField v rest
    | some x => some x
    | none => coalesceField v rest

/-- `obj.function && typeof obj.function === "object"`. -/
def functionObj? (v : JsonValue) : Option JsonValue :=
  match jsGetField v ("function") with
  | some f => if isObjLike f then some f else none
  | none => none

/-- `Object.values`, keeping only the string-valued ones (for an array these
    are its string items). -/
def stringValues (v : JsonValue) : List String :=
  match v with
  | .obj fields => fields.filterMap (fun p => match p.2 with | .str s => some s | _ => none)
  | .arr items => items.filterMap (fun x => match x with | .str s => some s | _ => none)
  | _ => []

/-- JS `Map.set` / property-write semantics on an association list: an
    existing key keeps its position and takes the new value. -/
def setAssoc {α : Type} (entries : List (String × α)) (key : String) (v : α) :
    List (String × α) :=
  if entries.any (fun p => p.1 = key) then
    entries.map (fun p => if p.1 = key then (key, v) else p)
  else entries ++ [(key, v)]

def getAssoc {α : Type} (entries : List (String × α)) (key : String) : Option α :=
  (entries.find? (fun p => p.1 = key)).map Prod.snd

/-! ## Argument sanitization and stringification (`cli-provider.ts`) -/

mutual

/-- `sanitizeArgumentKeys`: depth-bounded key-trimming walk. -/
def sanitizeArgumentKeys : JsonValue → Nat → JsonValue
  | value, depth =>
    if depth > 20 then value
    else
      match value with
      | .arr items => .arr (sanitizeItems items (depth + 1))
      | .obj fields => .obj (dedupFields (sanitizeFields fields (depth + 1)))
      | v => v

def sanitizeItems : List JsonValue → Nat → List JsonValue
  | [], _ => []
  | v :: rest, depth => sanitizeArgumentKeys v depth :: sanitizeItems rest depth

/-- Each entry `rawKey` becomes `trim(rawKey) || rawKey`; values recurse. -/
def sanitizeFields : List (String × JsonValue) → Nat → List (String × JsonValue)
  | [], _ => []
  | (k, v) :: rest, depth =>
    let trimmedKey := jsTrim k
    let key := if trimmedKey = ("") then k else trimmedKey
    (key, sanitizeArgumentKeys v depth) :: sanitizeFields rest depth

end

/-- `asToolCallArguments`: strings that look like JSON (start with a brace or
    bracket after trimming) are parsed, key-sanitized and re-serialized, other
    strings pass through verbatim; non-strings are stringified (null becomes
    the empty object). -/
def asToolCallArguments (value : JsonValue) : String :=
  match value with
  | .str s =>
    let trimmed := jsTrim s
    if trimmed ≠ ("") ∧ (trimmed.data.head? = some lbrace ∨ trimmed.data.head? = some '[') then
      match jsonParse trimmed with
      | some parsed => stringifyValue (sanitizeArgumentKeys parsed 0)
      | none => s
    else s
  | .null => stringifyValue (sanitizeArgumentKeys (.obj []) 0)
  | v => stringifyValue (sanitizeArgumentKeys v 0)

/-! ## Nested tool-call recovery (`extractNestedToolCall`, `jsonCandidates`) -/

structure NestedToolCall where
  id : Option String
  name : String
  arguments : String
  deriving Repr

/-- `normalizeToolCallsShallow` from `cli-provider.ts`. -/
def normalizeToolCallsShallow (rawToolCalls : Option (List JsonValue)) :
    List NestedToolCall :=
  match rawToolCalls with
  | none => []
  | some entries =>
    entries.filterMap (fun entry =>
      if ¬ isObjLike entry then none
      else
        let fn := functionObj? entry
        let name :=
          (((nonEmptyStrField? entry ("name")).orElse
              (fun _ => nonEmptyStrField? entry ("tool_name"))).orElse
            (fun _ => nonEmptyStrField? entry ("toolName"))).getD
            (match fn with
             | some f => (strField? f ("name")).getD ("")
             | none => (""))
        if name = ("") then none
        else
          let argsRaw :=
            ((coalesceField entry [("arguments"), ("args"), ("parameters")]).orElse
              (fun _ =>
                match fn with
                | some f => coalesceField f [("arguments"), ("args")]
                | none => none)).getD (.obj [])
          some
            { id :=
                (((nonEmptyStrField? entry ("id")).orElse
                    (fun _ => nonEmptyStrField? entry ("call_id"))).orElse
                  (fun _ => nonEmptyStrField? entry ("tool_id"))).orElse
                  (fun _ => nonEmptyStrField? entry ("toolId"))
              name := name
              arguments := asToolCallArguments argsRaw })

def btick : Char := Char.ofNat 96

/-- Split a character list at the first occurrence of `pat`, returning the
    part before it and the part after it. -/
def splitAtSub (pat : List Char) : List Char → Option (List Char × List Char)
  | [] => if pat.isEmpty then some ([], []) else none
  | c :: rest =>
    if pat.isPrefixOf (c :: rest) then some ([], (c :: rest).drop pat.length)
    else (splitAtSub pat rest).map (fun p => (c :: p.1, p.2))

/-- The fenced-block matches of ```` /```(?:json)?\s*([\s\S]*?)```/gi ````:
    after an opening fence, an optional case-insensitive `json` tag and
    greedy whitespace, the lazy body runs to the next fence; scanning resumes
    after the closing fence.  Empty (trimmed) bodies are dropped by the
    caller's `if (candidate)` check. -/
def fenceScan : Nat → List Char → List String
  | 0, _ => []
  | fuel + 1, cs =>
    match splitAtSub [btick, btick, btick] cs with
    | none => []
    | some (_, afterOpen) =>
      let afterLang :=
        if (afterOpen.take 4).map Char.toLower = [('j' : Char), 's', 'o', 'n'] then
          afterOpen.drop 4
        else afterOpen
      let body0 := afterLang.dropWhile isJsSpace
      match splitAtSub [btick, btick, btick] body0 with
      | none => []
      | some (body, afterClose) =>
        let cand := jsTrim ⟨body⟩
        (if cand = ("") then [] else [cand]) ++ fenceScan fuel afterClose

/-- `jsonCandidates` from `cli-provider.ts`: the trimmed whole, every fenced
    block body, and the slice from the first left brace to the last right
    brace. -/
def jsonCandidates (input : String) : List String :=
  let trimmed := jsTrim input
  let cs := input.data
  let braceSlice :=
    match cs.findIdx? (fun c => c = lbrace), cs.reverse.findIdx? (fun c => c = rbrace) with
    | some s, some rIdx =>
      let e := cs.length - 1 - rIdx
      if s < e then
        let body := jsTrim ⟨(cs.drop s).take (e - s + 1)⟩
        if body = ("") then [] else [body]
      else []
    | _, _ => []
  (if trimmed = ("") then [] else [trimmed]) ++ fenceScan cs.length cs ++ braceSlice

/-- Parse each unseen candidate, extending the seen set in order and keeping
    the successfully parsed values for the queue. -/
def collectCandidates : List String → List String → (List JsonValue × List String)
  | [], seen => ([], seen)
  | c :: rest, seen =>
    if seen.contains c then collectCandidates rest seen
    else
      let seen1 := seen ++ [c]
      match jsonParse c with
      | some parsed =>
        let (vs, seen2) := collectCandidates rest seen1
        (parsed :: vs, seen2)
      | none => collectCandidates rest seen1

/-- The bounded breadth-first walk of `extractNestedToolCall`: the fuel is the
    iteration cap (80 in the source); the queue grows at the tail exactly as
    the JS array does. -/
def nestedSearch : Nat → List JsonValue → List String → Option NestedToolCall
  | 0, _, _ => none
  | _ + 1, [], _ => none
  | fuel + 1, current :: queue, seen =>
    match current with
    | .null => nestedSearch fuel queue seen
    | .bool _ => nestedSearch fuel queue seen
    | .num _ => nestedSearch fuel queue seen
    | .str s0 =>
      if s0 = ("") then nestedSearch fuel queue seen
      else
        let text := jsTrim s0
        if text = ("") ∨ seen.contains text then nestedSearch fuel queue seen
        else
          let (newVals, seen2) := collectCandidates (jsonCandidates text) (seen ++ [text])
          nestedSearch fuel (queue ++ newVals) seen2
    | v =>
      let toolCalls := normalizeToolCallsShallow
        (match jsGetField v ("tool_calls") with
         | some (.arr xs) => some xs
         | _ => none)
      match toolCalls.head? with
      | some first => some first
      | none =>
        let stringPushes : List String :=
          (match strField? v ("response") with | some s => [s] | none => []) ++
          (match jsGetField v ("message") with
           | some m =>
             if isObjLike m then
               match strField? m ("content") with | some s => [s] | none => []
             else []
           | none => []) ++
          (match strField? v ("output_text") with | some s => [s] | none => []) ++
          (match strField? v ("text") with | some s => [s] | none => []) ++
          (match strField? v ("content") with | some s => [s] | none => []) ++
          stringValues v
        nestedSearch fuel (queue ++ stringPushes.map .str) seen

def extractNestedToolCall (value : JsonValue) : Option NestedToolCall :=
  nestedSearch 80 [value] []

/-! ## Tool-call normalization proper (`normalizeToolCalls`) -/

/-- `normalizeToolCalls` from `cli-provider.ts`: walk the raw `tool_calls`
    entries, extracting id, name and arguments, with nested recovery. -/
def normalizeToolCalls (rawToolCalls : Option (List JsonValue)) :
    List ProviderToolCall :=
  match rawToolCalls with
  | none => []
  | some entries =>
    entries.foldl (fun calls entry =>
      if ¬ isObjLike entry then calls
      else
        let fn := functionObj? entry
        let idCandidate :=
          (((nonEmptyStrField? entry ("id")).orElse
              (fun _ => nonEmptyStrField? entry ("call_id"))).orElse
            (fun _ => nonEmptyStrField? entry ("tool_id"))).orElse
            (fun _ => nonEmptyStrField? entry ("toolId"))
        let nameCandidate :=
          (((nonEmptyStrField? entry ("name")).orElse
              (fun _ => nonEmptyStrField? entry ("tool_name"))).orElse
            (fun _ => nonEmptyStrField? entry ("toolName"))).orElse
            (fun _ => match fn with | some f => strField? f ("name") | none => none)
        let argsRaw :=
          ((coalesceField entry [("arguments"), ("args"), ("parameters")]).orElse
            (fun _ =>
              match fn with
              | some f => coalesceField f [("arguments"), ("args")]
              | none => none)).getD (.str ("\x7b\x7d"))
        match extractNestedToolCall argsRaw with
        | some nested =>
          calls ++ [{
            id := ((idCandidate.orElse (fun _ => nested.id)).getD
              (("call_") ++ toString (calls.length + 1)))
            name :=
              if nested.name ≠ ("") then nested.name
              else
                match nameCandidate with
                | some n => if n ≠ ("") then n else ("tool")
                | none => ("tool")
            arguments := nested.arguments }]
        | none =>
          match nameCandidate with
          | none => calls
          | some n =>
            if n = ("") then calls
            else
              calls ++ [{
                id := idCandidate.getD (("call_") ++ toString (calls.length + 1))
                name := n
                arguments := asToolCallArguments argsRaw }]) []

/-! ## Declared-tool post-processing (`normalizeResultToolCalls`) -/

structure AllowedToolMeta where
  name : String
  argumentKeyMap : List (String × String)

/-- A declared tool: `type`, `function.name` and `function.parameters`. -/
structure UnifiedToolDefinition where
  type : String
  fname : String
  parameters : Option JsonValue

/-- `buildArgumentKeyMap`: the declared parameter property names, keyed by
    their normalized forms.  (`Object.keys` insertion order; the schemas the
    gateway sees use non-numeric keys, for which JS preserves it.) -/
def buildArgumentKeyMap (parameters : Option JsonValue) : List (String × String) :=
  match parameters with
  | none => []
  | some ps =>
    if ¬ isObjLike ps then []
    else
      match jsGetField ps ("properties") with
      | some (.obj fields) =>
        fields.foldl (fun out p =>
          if p.1 = ("") then out else setAssoc out (normalizeArgumentKey p.1) p.1) []
      | _ => []

/-- `extractAllowedTools`: map from normalized declared name to canonical
    declared name plus argument-key map. -/
def extractAllowedTools (tools : List UnifiedToolDefinition) :
    List (String × AllowedToolMeta) :=
  tools.foldl (fun out item =>
    if item.type ≠ ("function") then out
    else
      let name := jsTrim item.fname
      if name = ("") then out
      else
        setAssoc out (normalizeToolName name)
          { name := name, argumentKeyMap := buildArgumentKeyMap item.parameters }) []

/-- `canonicalizeArgumentsForTool` from `cli-provider.ts`. -/
def canonicalizeArgumentsForTool (rawArgs : String)
    (argumentKeyMap : List (String × String)) : String :=
  if argumentKeyMap.isEmpty then rawArgs
  else
    match jsonParse rawArgs with
    | none => rawArgs
    | some parsed =>
      match sanitizeArgumentKeys parsed 0 with
      | .obj fields =>
        let out := fields.foldl (fun acc p =>
          let trimmedKey := jsTrim p.1
          let canonicalKey :=
            (getAssoc argumentKeyMap (normalizeArgumentKey trimmedKey)).getD trimmedKey
          jsSetField acc canonicalKey p.2) []
        stringifyValue (.obj out)
      | .null => stringifyValue (.obj [])
      | v => stringifyValue v

/-- `normalizeResultToolCalls` from `cli-provider.ts`. -/
def normalizeResultToolCalls (result : ProviderResult)
    (tools : List UnifiedToolDefinition) : ProviderResult :=
  let allowedTools := extractAllowedTools tools
  if result.toolCalls.isEmpty then result
  else if allowedTools.isEmpty then
    { result with
      toolCalls := []
      finishReason :=
        if result.finishReason = .tool_calls then .stop else result.finishReason }
  else
    let mappedToolCalls := result.toolCalls.filterMap (fun call =>
      match getAssoc allowedTools (normalizeToolName call.name) with
      | none => none
      | some toolMeta =>
        some { call with
          name := toolMeta.name
          arguments := canonicalizeArgumentsForTool call.arguments toolMeta.argumentKeyMap })
    { result with
      toolCalls := mappedToolCalls
      finishReason :=
        if mappedToolCalls.length > 0 then result.finishReason
        else if result.finishReason = .tool_calls then .stop
        else result.finishReason }

/-! ## The JSON contract parser (`tryParseJsonContract`, `normalizeContract`) -/

structure JsonContract where
  output_text : Option String
  text : Option String
  content : Option String
  tool_calls : Option (List JsonValue)
  finish_reason : Option FinishReason

/-- `normalizeContract`: only values of JS object type (objects and arrays)
    are accepted; string fields and the `tool_calls` array are extracted. -/
def normalizeContract (value : JsonValue) : Except String JsonContract :=
  if ¬ isObjLike value then .error ("Provider JSON output must be an object.")
  else
    .ok
      { output_text := strField? value ("output_text")
        text := strField? value ("text")
        content := strField? value ("content")
        tool_calls :=
          match jsGetField value ("tool_calls") with
          | some (.arr xs) => some xs
          | _ => none
        finish_reason :=
          match strField? value ("finish_reason") with
          | some s =>
            if s = ("stop") then some .stop
            else if s = ("tool_calls") then some .tool_calls
            else if s = ("length") then some .length
            else if s = ("error") then some .error
            else none
          | none => none }

/-- The bottom-up line scan inside `tryParseJsonContract` (the input list is
    already reversed). -/
def scanContractLines : List String → Except String JsonContract
  | [] => .error ("Unable to parse provider JSON output. Check responseCommand.output mode.")
  | line :: rest =>
    let candidate := jsTrim line
    if candidate = ("") then scanContractLines rest
    else
      match jsonParse candidate with
      | some v =>
        match normalizeContract v with
        | .ok c => .ok c
        | .error _ => scanContractLines rest
      | none => scanContractLines rest

/-- `tryParseJsonContract` from `cli-provider.ts`. -/
def tryParseJsonContract (stdout : String) : Except String JsonContract :=
  let trimmed := jsTrim stdout
  if trimmed = ("") then
    .error ("Provider returned empty output while json_contract mode is enabled.")
  else
    match jsonParse trimmed with
    | some v =>
      match normalizeContract v with
      | .ok c => .ok c
      | .error _ => scanContractLines (splitLines trimmed).reverse
    | none => scanContractLines (splitLines trimmed).reverse

def tryParseJsonContractSoft (stdout : String) : Option JsonContract :=
  match tryParseJsonContract stdout with
  | .ok c => some c
  | .error _ => none

/-- `contract.output_text || contract.text || contract.content ||
    contract.tool_calls?.length` — the truthiness test of the `text` mode. -/
def contractHasContent (c : JsonContract) : Bool :=
  (match c.output_text with | some s => s ≠ ("") | none => false) ||
  (match c.text with | some s => s ≠ ("") | none => false) ||
  (match c.content with | some s => s ≠ ("") | none => false) ||
  (match c.tool_calls with | some xs => xs.length ≠ 0 | none => false)

/-- `(contract.output_text ?? contract.text ?? contract.content ?? "").trim()`. -/
def contractOutputText (c : JsonContract) : String :=
  jsTrim (((c.output_text.orElse (fun _ => c.text)).orElse (fun _ => c.content)).getD (""))

/-- `CliProvider.parseOutput` from `cli-provider.ts`: only the `text` mode is
    special-cased; every other mode hard-parses the JSON contract. -/
def parseOutput (mode : CommandOutputMode) (stdout : String) :
    Except String ProviderResult :=
  match mode with
  | .text =>
    match tryParseJsonContractSoft stdout with
    | some contract =>
      if contractHasContent contract then
        let toolCalls := normalizeToolCalls contract.tool_calls
        .ok
          { outputText := contractOutputText contract
            toolCalls := toolCalls
            finishReason :=
              contract.finish_reason.getD
                (if toolCalls.length > 0 then .tool_calls else .stop) }
      else .ok { outputText := jsTrim stdout, toolCalls := [], finishReason := .stop }
    | none => .ok { outputText := jsTrim stdout, toolCalls := [], finishReason := .stop }
  | _ =>
    match tryParseJsonContract stdout with
    | .error e => .error e
    | .ok json =>
      let toolCalls := normalizeToolCalls json.tool_calls
      .ok
        { outputText := contractOutputText json
          toolCalls := toolCalls
          finishReason :=
            json.finish_reason.getD
              (if toolCalls.length > 0 then .tool_calls else .stop) }

/-- A line's trimmed content parsed to a JSON value of object type (object or
    array), for the spec-side description of `json_contract` parsing. -/
def lineObjectValue? (line : String) : Option JsonValue :=
  match jsonParse (jsTrim line) with
  | some v => if isObjLike v then some v else none
  | none => none

/-- The spec's description of `json_contract` parsing, with "JSON object"
    read as the code's "JS value of object type" (object or array): empty
    trimmed stdout is a parse error; otherwise `JSON.parse` of the trimmed
    whole is used when it yields an object-typed value; otherwise the lines
    are scanned bottom-up and the first whose trimmed content parses to an
    object-typed value supplies the contract; otherwise a parse error. -/
def specJsonContractParse (stdout : String) : Except String JsonContract :=
  let trimmed := jsTrim stdout
  if trimmed = ("") then
    .error ("Provider returned empty output while json_contract mode is enabled.")
  else
    match (jsonParse trimmed).bind (fun v => if isObjLike v then some v else none) with
    | some v => normalizeContract v
    | none =>
      match ((splitLines trimmed).reverse.filterMap lineObjectValue?).head? with
      | some v => normalizeContract v
      | none =>
        .error ("Unable to parse provider JSON output. Check responseCommand.output mode.")

/-! ## Provider registry and the fallback chain (`registry.ts`)

`ProviderRegistry.runModel` is embedded with the provider execution
abstracted by an oracle `String → Except String ProviderResult` standing for
`binding.provider.run` (its errors are the thrown error messages); the
health-tracker calls are recorded as an event trace. -/

structure ModelBinding where
  modelId : String
  providerModel : String
  providerId : String
  fallbackModelIds : List String
  deriving DecidableEq, Repr

inductive StatsEvent where
  | attempt (modelId providerId : String) (attemptIndex : Nat)
  | success (modelId : String) (attemptIndex : Nat)
  | failure (modelId providerId : String) (attemptIndex : Nat) (kind : ModelFailureKind)
  | fallback (fromModelId toModelId : String) (reason : ModelFailureKind)
  deriving DecidableEq, Repr

/-- The state of the `while` loop on exit: attempted ids, recorded events,
    and either the returned result or the `lastError` message. -/
structure ChainState where
  attempted : List String
  events : List StatsEvent
  outcome : Except (Option String) ProviderResult

/-- What `runModel` produces: the thrown message or the result, plus the
    attempted ids and recorded health-tracker events. -/
structure RunOutcome where
  result : Except String ProviderResult
  attempted : List String
  events : List StatsEvent

/-- `attempted.join(" -> ")`. -/
def joinArrow : List String → String
  | [] => ("")
  | [x] => x
  | x :: rest => x ++ (" -> ") ++ joinArrow rest

/-- The `while (currentModelId)` loop of `ProviderRegistry.runModel`.  Each
    iteration adds an unvisited id to `visited`, so `models.length + 1` fuel
    is never exhausted; fuel `0` exits the loop like an exhausted chain. -/
def runModelGo (models : List (String × ModelBinding))
    (oracle : String → Except String ProviderResult) :
    Nat → Option String → List String → List String → List StatsEvent →
    Option String → ChainState
  | 0, _, _, attempted, events, lastError =>
    ⟨attempted, events, .error lastError⟩
  | _ + 1, none, _, attempted, events, lastError =>
    ⟨attempted, events, .error lastError⟩
  | fuel + 1, some current, visited, attempted, events, lastError =>
    if current ∈ visited then ⟨attempted, events, .error lastError⟩
    else
      match getAssoc models current with
      | none =>
        ⟨attempted ++ [current],
          events ++ [.attempt current ("unknown") ((attempted ++ [current]).length - 1),
            .failure current ("unknown") ((attempted ++ [current]).length - 1)
              (classifyFailure (("Fallback model not found: ") ++ current))],
          .error (some (("Fallback model not found: ") ++ current))⟩
      | some binding =>
        match oracle current with
        | .ok result =>
          ⟨attempted ++ [current],
            events ++ [.attempt current binding.providerId ((attempted ++ [current]).length - 1)] ++
              [.success current ((attempted ++ [current]).length - 1)],
            .ok result⟩
        | .error e =>
          match binding.fallbackModelIds.find?
              (fun fb => decide (fb ∉ visited ++ [current])) with
          | none =>
            ⟨attempted ++ [current],
              events ++
                [.attempt current binding.providerId ((attempted ++ [current]).length - 1)] ++
                [.failure current binding.providerId ((attempted ++ [current]).length - 1)
                  (classifyFailure e)],
              .error (some e)⟩
          | some next =>
            runModelGo models oracle fuel (some next) (visited ++ [current])
              (attempted ++ [current])
              (events ++
                [.attempt current binding.providerId ((attempted ++ [current]).length - 1)] ++
                [.failure current binding.providerId ((attempted ++ [current]).length - 1)
                  (classifyFailure e)] ++
                [.fallback current next (classifyFailure e)])
              (some e)

/-- The tail of `runModel` after the loop: return the result, or re-throw the
    single error, or wrap the chain summary. -/
def finishRun (st : ChainState) : RunOutcome :=
  match st.outcome with
  | .ok r => { result := .ok r, attempted := st.attempted, events := st.events }
  | .error lastErr =>
    if st.attempted.length ≤ 1 then
      { result := .error
          (lastErr.getD ("Model execution failed with an unknown provider error."))
        attempted := st.attempted, events := st.events }
    else
      { result := .error
          (("Model execution failed after fallback chain: ") ++ joinArrow st.attempted ++
            (".\nLast error: ") ++ lastErr.getD ("Unknown provider error."))
        attempted := st.attempted, events := st.events }

/-- `ProviderRegistry.runModel` from `registry.ts`. -/
def runModel (models : List (String × ModelBinding))
    (oracle : String → Except String ProviderResult) (modelId : String) : RunOutcome :=
  if (getAssoc models modelId).isNone then
    { result := .error (("Unknown model: ") ++ modelId), attempted := [], events := [] }
  else
    finishRun (runModelGo models oracle (models.length + 1) (some modelId) [] [] [] none)

/-- An edge of the fallback graph: `b` is among the fallbacks configured for
    the registered model `a`. -/
def fallbackEdge (models : List (String × ModelBinding)) (a b : String) : Prop :=
  ∃ bind, getAssoc models a = some bind ∧ b ∈ bind.fallbackModelIds

/-! ## Background job manager (`JobManager` in `cli-exec-manager.ts`)

Only the state the log pipeline touches is modelled: the ring-buffered
`logs`, the unique `urls`, and the `maxLogLines` cap. -/

structure LoginJobRecord where
  logs : List String
  urls : List String
  maxLogLines : Nat
  deriving DecidableEq, Repr

/-- Case-insensitively consume `pat` (given lowercase) from the head. -/
def matchCI : List Char → List Char → Option (List Char)
  | [], cs => some cs
  | _ :: _, [] => none
  | p :: ps, c :: cs => if Char.toLower c = p then matchCI ps cs else none

/-- Consume `pat` literally from the head. -/
def matchLit : List Char → List Char → Option (List Char)
  | [], cs => some cs
  | _ :: _, [] => none
  | p :: ps, c :: cs => if c = p then matchLit ps cs else none

/-- The length of a match of `/https?:\/\/[^\s]+/i` anchored at the head:
    `http` (case-insensitive), a greedy optional `s`, `://`, then at least one
    non-space character, extended greedily. -/
def urlMatchLen (cs : List Char) : Option Nat :=
  match matchCI [('h' : Char), 't', 't', 'p'] cs with
  | none => none
  | some rest1 =>
    let withS :=
      match rest1 with
      | c :: r2 => if Char.toLower c = 's' then (matchLit [(':' : Char), '/', '/'] r2).map
          (fun r3 => (4, r3)) else none
      | [] => none
    let afterScheme :=
      match withS with
      | some p => some p
      | none => (matchLit [(':' : Char), '/', '/'] rest1).map (fun r3 => (3, r3))
    match afterScheme with
    | none => none
    | some (schemeTail, rest3) =>
      let body := rest3.takeWhile (fun c => ¬ isJsSpace c)
      if body.isEmpty then none
      else some (4 + schemeTail + body.length)

/-- The global scan of `/https?:\/\/[^\s]+/gi`: leftmost matches, scanning
    resuming after each match. -/
def urlScan : Nat → List Char → List String
  | 0, _ => []
  | _ + 1, [] => []
  | fuel + 1, c :: rest =>
    match urlMatchLen (c :: rest) with
    | some n => (⟨(c :: rest).take n⟩ : String) :: urlScan fuel ((c :: rest).drop n)
    | none => urlScan fuel rest

/-- `line.match(URL_REGEX) ?? []`. -/
def urlMatches (line : String) : List String :=
  urlScan line.data.length line.data

/-- `JobManager.pushLog`: append the line, trim the ring buffer to the last
    `maxLogLines` entries, and append each previously unseen URL match. -/
def pushLog (record : LoginJobRecord) (line : String) : LoginJobRecord :=
  { record with
    logs :=
      if (record.logs ++ [line]).length > record.maxLogLines then
        (record.logs ++ [line]).drop ((record.logs ++ [line]).length - record.maxLogLines)
      else record.logs ++ [line]
    urls :=
      (urlMatches line).foldl
        (fun acc url => if acc.contains url then acc else acc ++ [url]) record.urls }

/-- `JobManager.pushChunk`: split the chunk on `\r?\n`, trim each line, skip
    blanks, push the rest tagged with the stream name. -/
def pushChunk (record : LoginJobRecord) (stream : String) (chunk : String) :
    LoginJobRecord :=
  (splitLines chunk).foldl
    (fun rec rawLine =>
      if jsTrim rawLine = ("") then rec
      else pushLog rec (("[") ++ stream ++ ("] ") ++ jsTrim rawLine)) record

/-- The prefixed log entries a chunk contributes. -/
def chunkEntries (stream : String) (chunk : String) : List String :=
  (splitLines chunk).filterMap (fun rawLine =>
    if jsTrim rawLine = ("") then none
    else some (("[") ++ stream ++ ("] ") ++ jsTrim rawLine))

/-- Insertion into a list sorted descending by `startedAt`, modelling the
    comparator `(a, b) => (a.startedAt < b.startedAt ? 1 : -1)`. -/
def insertByStartedAtDesc {α : Type} (key : α → String) (x : α) : List α → List α
  | [] => [x]
  | y :: rest =>
    if key y < key x then x :: y :: rest else y :: insertByStartedAtDesc key x rest

def sortByStartedAtDesc {α : Type} (key : α → String) : List α → List α
  | [] => []
  | x :: rest => insertByStartedAtDesc key x (sortByStartedAtDesc key rest)

/-- `listJobs(limit)` of `JobManager` and `CliExecManager`: sort by
    `startedAt` descending, then `slice(0, Math.max(1, limit))`. -/
def listJobs {α : Type} (key : α → String) (jobs : List α) (limit : Int) : List α :=
  (sortByStartedAtDesc key jobs).take (max 1 limit).toNat

/-! ## Helper lemmas about the template scanner -/

theorem word_not_space {c : Char} (h : isWordChar c = true) : isJsSpace c = false := by
  simp only [isJsSpace, Bool.or_eq_false_iff, decide_eq_false_iff_not]
  refine ⟨⟨⟨⟨⟨?_, ?_⟩, ?_⟩, ?_⟩, ?_⟩, ?_⟩ <;> (rintro rfl; exact absurd h (by decide))

theorem space_not_word {c : Char} (h : isJsSpace c = true) : isWordChar c = false := by
  simp only [isJsSpace, Bool.or_eq_true, decide_eq_true_eq] at h
  rcases h with ((((rfl | rfl) | rfl) | rfl) | rfl) | rfl <;> decide

theorem dropWhile_append_all {p : Char → Bool} {l m : List Char}
    (h : ∀ c ∈ l, p c = true) : (l ++ m).dropWhile p = m.dropWhile p := by
  induction l with
  | nil => rfl
  | cons a l ih =>
    simp only [List.cons_append, List.dropWhile_cons, h a (by simp)]
    exact ih (fun c hc => h c (by simp [hc]))

theorem dropWhile_head_false {p : Char → Bool} {m : List Char}
    (h : ∀ c, m.head? = some c → p c = false) : m.dropWhile p = m := by
  cases m with
  | nil => rfl
  | cons a m => simp [List.dropWhile_cons, h a rfl]

theorem takeWhile_append_stop {p : Char → Bool} {l m : List Char}
    (hl : ∀ c ∈ l, p c = true) (hm : ∀ c, m.head? = some c → p c = false) :
    (l ++ m).takeWhile p = l := by
  induction l with
  | nil =>
    cases m with
    | nil => rfl
    | cons a m => simp [List.takeWhile_cons, hm a rfl]
  | cons a l ih =>
    simp only [List.cons_append, List.takeWhile_cons, hl a (by simp), if_true]
    rw [ih (fun c hc => hl c (by simp [hc]))]

theorem dropWhile_append_stop {p : Char → Bool} {l m : List Char}
    (hl : ∀ c ∈ l, p c = true) (hm : ∀ c, m.head? = some c → p c = false) :
    (l ++ m).dropWhile p = m := by
  rw [dropWhile_append_all hl, dropWhile_head_false hm]

theorem templateScan_nil (subst : String → String) (fuel : Nat) :
    templateScan subst fuel [] = [] := by
  cases fuel <;> rfl

theorem templateScan_no_lbrace (subst : String → String) (fuel : Nat)
    (cs : List Char) (h : ∀ c ∈ cs, c ≠ lbrace) :
    templateScan subst fuel cs = cs := by
  induction fuel generalizing cs with
  | zero => rfl
  | succ fuel ih =>
    cases cs with
    | nil => rfl
    | cons c rest =>
      have hmatch : matchPlaceholder (c :: rest) = none := by
        cases rest with
        | nil => rfl
        | cons c2 r =>
          simp only [matchPlaceholder]
          rw [if_neg]
          rintro ⟨rfl, -⟩
          exact h lbrace (by simp) rfl
      simp only [templateScan, hmatch]
      rw [ih rest (fun x hx => h x (by simp [hx]))]

theorem templateScan_placeholder (subst : String → String) (fuel : Nat)
    (ws1 ws2 name : String)
    (hw1 : ∀ c ∈ ws1.data, isJsSpace c = true)
    (hw2 : ∀ c ∈ ws2.data, isJsSpace c = true)
    (hname : name.data ≠ [])
    (hwn : ∀ c ∈ name.data, isWordChar c = true) :
    templateScan subst (fuel + 1)
      (lbrace :: lbrace :: (ws1.data ++ (name.data ++ (ws2.data ++ [rbrace, rbrace])))) =
      (subst name).data := by
  have hnameHead : ∀ c, (name.data ++ (ws2.data ++ [rbrace, rbrace])).head? = some c →
      isJsSpace c = false := by
    intro c hc
    cases hd : name.data with
    | nil => exact absurd hd hname
    | cons a t =>
      rw [hd] at hc
      simp only [List.cons_append, List.head?_cons, Option.some.injEq] at hc
      subst hc
      exact word_not_space (hwn _ (by rw [hd]; simp))
  have hstop2 : ∀ c, (ws2.data ++ [rbrace, rbrace]).head? = some c → isWordChar c = false := by
    intro c hc
    cases hd : ws2.data with
    | nil =>
      rw [hd] at hc
      simp only [List.nil_append, List.head?_cons, Option.some.injEq] at hc
      subst hc
      decide
    | cons a t =>
      rw [hd] at hc
      simp only [List.cons_append, List.head?_cons, Option.some.injEq] at hc
      subst hc
      exact space_not_word (hw2 _ (by rw [hd]; simp))
  have hrb : ∀ c, ([rbrace, rbrace] : List Char).head? = some c → isJsSpace c = false := by
    intro c hc
    simp only [List.head?_cons, Option.some.injEq] at hc
    subst hc
    decide
  have hmatch : matchPlaceholder
      (lbrace :: lbrace :: (ws1.data ++ (name.data ++ (ws2.data ++ [rbrace, rbrace])))) =
      some (name, []) := by
    simp only [matchPlaceholder]
    rw [if_pos ⟨trivial, trivial⟩]
    rw [dropWhile_append_stop hw1 hnameHead]
    rw [takeWhile_append_stop hwn hstop2]
    rw [dropWhile_append_stop hwn hstop2]
    rw [dropWhile_append_stop hw2 hrb]
    rw [if_neg (by simpa using hname)]
    rfl
  simp only [templateScan, hmatch]
  rw [templateScan_nil]
  simp

end Gateway

namespace Gateway

/-! ## Theorems for C6 and C7 -/

/-- C6: for every error message, failure classification lowercases the message
    and returns the kind of the first matching substring rule in the fixed
    order `invalid_model, config, quota_exhausted, capacity_exhausted,
    rate_limited, timeout, auth, provider_exit`, else `unknown`; in particular
    a message containing both "quota" and "timed out" classifies as
    `quota_exhausted`, not `timeout`. -/
theorem classifyFailure_first_match :
    (∀ m : String, classifyFailure m = firstMatchKind m) ∧
    classifyFailure ("insufficient quota: request timed out") =
      ModelFailureKind.quota_exhausted := by
  constructor
  · intro m
    unfold classifyFailure firstMatchKind failureRules
    simp only [List.find?]
    repeat' split <;> simp_all
  · rfl

/-- C7: when a failure kind and timestamp are recorded and the clock has not
    gone backwards, the suggested cooldown equals
    `ceil(max(0, lastFailureAt + base*1000*multiplier - now) / 1000)` with the
    base looked up from the kind table and
    `multiplier = clamp(consecutiveCounterForKind, 1, 8)`; moreover any
    consecutive count of at least 8 (such as 100) yields the same cooldown as
    exactly 8. -/
theorem computeCooldown_formula (stat : CooldownStats) (now : Nat)
    (kind : ModelFailureKind)
    (hkind : stat.lastFailureKind = some kind)
    (hset : stat.lastFailureAtMs ≠ 0)
    (hclock : stat.lastFailureAtMs ≤ now) :
    computeCooldown stat now =
      (stat.lastFailureAtMs +
        baseCooldownSecondsByKind kind * 1000 * min 8 (max 1 (consecutiveForKind stat kind))
        - now + 999) / 1000 := by
  unfold computeCooldown
  rw [hkind]
  simp only [hset, if_false]
  split
  · rename_i hbase
    rw [hbase]
    simp only [Nat.zero_mul, Nat.mul_zero, Nat.zero_mul]
    omega
  · rfl

/-- C2 counterexample: the claim says shell-escaping is OFF by default and
    `applyTemplate(s, \x7b\x7d)` replaces every placeholder — including
    `\x7b\x7bprompt\x7d\x7d` — with the empty string, leaving no placeholder
    of known syntax.  In the code `escapeShell` defaults to `true`, so an
    unbound `\x7b\x7bprompt\x7d\x7d` becomes two single quotes (the shell
    escape of the empty string), not the empty string; and because substituted
    text is not rescanned, nesting placeholder delimiters can leave a
    placeholder of known syntax in the output (the residue substitutes again
    under a binding for `a`). -/
theorem applyTemplate_claim_counterexample :
    applyTemplate (("\x7b\x7bprompt\x7d\x7d")) [] defaultTemplateOptions = ⟨[squote, squote]⟩ ∧
    (⟨[squote, squote]⟩ : String) ≠ ("") ∧
    applyTemplate (("\x7b\x7b \x7b\x7bb\x7d\x7da\x7d\x7d")) [] defaultTemplateOptions =
      ("\x7b\x7b a\x7d\x7d") ∧
    applyTemplate (("\x7b\x7b a\x7d\x7d")) [(("a"), ("X"))] defaultTemplateOptions = ("X") := by
  exact ⟨rfl, by decide, rfl, rfl⟩

/-- C2 (amended): with default options, applyTemplate substitutes every
    `\x7b\x7bname\x7d\x7d` placeholder (optional internal whitespace, name in
    `[A-Za-z0-9_]+`) with the bound variable value and unknown names with the
    empty string, except that shell-escaping is ON by default for the
    user-controlled variable `prompt`, whose substituted value is
    shell-escaped; text containing no left brace is left unchanged, but
    substituted text is not rescanned, so nested placeholder delimiters can
    leave placeholder-shaped residue (see the counterexample). -/
theorem applyTemplate_default_behavior :
    (∀ (ws1 ws2 name : String) (vars : List (String × String)),
      (∀ c ∈ ws1.data, isJsSpace c = true) →
      (∀ c ∈ ws2.data, isJsSpace c = true) →
      name ≠ ("") →
      (∀ c ∈ name.data, isWordChar c = true) →
      applyTemplate (("\x7b\x7b") ++ ws1 ++ name ++ ws2 ++ ("\x7d\x7d")) vars
          defaultTemplateOptions =
        if name = ("prompt") then shellEscape (lookupVar vars name)
        else lookupVar vars name) ∧
    (∀ (s : String) (vars : List (String × String)),
      (∀ c ∈ s.data, c ≠ lbrace) →
      applyTemplate s vars defaultTemplateOptions = s) := by
  constructor
  · intro ws1 ws2 name vars hw1 hw2 hname hwn
    have hdata : (("\x7b\x7b") ++ ws1 ++ name ++ ws2 ++ ("\x7d\x7d")).data =
        lbrace :: lbrace :: (ws1.data ++ (name.data ++ (ws2.data ++ [rbrace, rbrace]))) := by
      simp [String.data_append, List.append_assoc]
      decide
    have hname' : name.data ≠ [] := by
      intro h
      exact hname (by cases name; simp_all)
    unfold applyTemplate
    rw [hdata]
    simp only [List.length_cons]
    rw [templateScan_placeholder _ _ _ _ _ hw1 hw2 hname' hwn]
    by_cases hp : name = ("prompt") <;>
      simp [hp, defaultTemplateOptions, USER_CONTROLLED_VARS, List.contains]
  · intro s vars h
    unfold applyTemplate
    rw [templateScan_no_lbrace _ _ _ h]

/-- Witness for the amended C2: a bound non-`prompt` variable substitutes to
    its value unescaped; an unbound `prompt` substitutes to the escaped empty
    string. -/
theorem applyTemplate_default_behavior_witness :
    applyTemplate (("\x7b\x7b") ++ ("") ++ ("model") ++ ("") ++ ("\x7d\x7d"))
      [(("model"), ("m1"))] defaultTemplateOptions = ("m1") ∧
    applyTemplate (("\x7b\x7b") ++ (" ") ++ ("prompt") ++ (" ") ++ ("\x7d\x7d")) []
      defaultTemplateOptions = ⟨[squote, squote]⟩ := by
  constructor
  · have h := applyTemplate_default_behavior.1 ("") ("") ("model")
      [(("model"), ("m1"))] (by simp) (by simp) (by decide) (by decide)
    rw [h]
    rfl
  · have h := applyTemplate_default_behavior.1 (" ") (" ") ("prompt") []
      (by decide) (by decide) (by decide) (by decide)
    rw [h]
    rfl

/-! ## Contract-parser lemmas and the C1/C8 theorems -/

theorem normalizeContract_of_objLike {v : JsonValue} (h : isObjLike v = true) :
    ∃ c, normalizeContract v = .ok c := by
  unfold normalizeContract
  rw [h]
  simp

theorem normalizeContract_of_not_objLike {v : JsonValue} (h : isObjLike v = false) :
    normalizeContract v = .error ("Provider JSON output must be an object.") := by
  simp [normalizeContract, h]

theorem jsonParse_empty : jsonParse ("") = none := rfl

theorem scanContractLines_eq_spec (lines : List String) :
    scanContractLines lines =
      match (lines.filterMap lineObjectValue?).head? with
      | some v => normalizeContract v
      | none =>
        .error ("Unable to parse provider JSON output. Check responseCommand.output mode.") := by
  induction lines with
  | nil => rfl
  | cons line rest ih =>
    simp only [scanContractLines, List.filterMap_cons]
    by_cases hc : jsTrim line = ("")
    · have hlo : lineObjectValue? line = none := by
        simp [lineObjectValue?, hc, jsonParse_empty]
      rw [if_pos hc, hlo, ih]
    · rw [if_neg hc]
      cases hp : jsonParse (jsTrim line) with
      | none =>
        have hlo : lineObjectValue? line = none := by simp [lineObjectValue?, hp]
        simp only [hlo]
        exact ih
      | some v =>
        cases ho : isObjLike v with
        | true =>
          obtain ⟨c, hcf⟩ := normalizeContract_of_objLike ho
          have hlo : lineObjectValue? line = some v := by simp [lineObjectValue?, hp, ho]
          simp [hlo, hcf]
        | false =>
          have hcf := normalizeContract_of_not_objLike ho
          have hlo : lineObjectValue? line = none := by simp [lineObjectValue?, hp, ho]
          simp only [hlo, hcf]
          exact ih

/-- C8 counterexample: on stdout `"x\n[]"` no line parses to a JSON *object*
    (the first is not JSON, the second is an array), so the claim as stated
    expects a parse error; the code accepts the array (JS `typeof` object)
    and returns an all-empty contract. -/
theorem tryParseJsonContract_array_counterexample :
    tryParseJsonContract ("x\n[]") =
      .ok { output_text := none, text := none, content := none,
            tool_calls := none, finish_reason := none } ∧
    jsonParse ("x") = none ∧
    jsonParse ("[]") = some (.arr []) :=
  ⟨rfl, rfl, rfl⟩

/-- C8 (amended): for every stdout under `json_contract`, empty trimmed
    stdout is a parse error; otherwise `JSON.parse` of the trimmed whole is
    used first when it yields a value of JS object type (object *or array*),
    and otherwise the lines are scanned bottom-up, the first line parsing to
    an object-typed value supplying the contract; if none does, parsing fails
    with an error. -/
theorem tryParseJsonContract_amended :
    (∀ stdout : String, tryParseJsonContract stdout = specJsonContractParse stdout) ∧
    tryParseJsonContract ("") =
      .error ("Provider returned empty output while json_contract mode is enabled.") := by
  constructor
  · intro stdout
    unfold tryParseJsonContract specJsonContractParse
    by_cases ht : jsTrim stdout = ("")
    · rw [if_pos ht, if_pos ht]
    · rw [if_neg ht, if_neg ht]
      cases hp : jsonParse (jsTrim stdout) with
      | none =>
        simp only [Option.none_bind]
        exact scanContractLines_eq_spec _
      | some v =>
        cases ho : isObjLike v with
        | true =>
          obtain ⟨c, hcf⟩ := normalizeContract_of_objLike ho
          simp [ho, hcf]
        | false =>
          have hcf := normalizeContract_of_not_objLike ho
          simp only [Option.some_bind, ho, if_false, hcf]
          exact scanContractLines_eq_spec _
  · rfl

/-- C1: the claim (and the repository README, which documents `text_plain` as
    "strict plain text mode … no JSON/tool-call extraction is attempted")
    says `text_plain` returns `(trim(stdout), [], stop)` unconditionally.
    `parseOutput` only special-cases mode `text`; `text_plain` falls into the
    hard JSON-contract branch, so non-JSON stdout `"hello"` and empty stdout
    both produce parser errors instead. -/
theorem parseOutput_text_plain_divergence :
    parseOutput .text_plain ("hello") =
      .error ("Unable to parse provider JSON output. Check responseCommand.output mode.") ∧
    parseOutput .text_plain ("") =
      .error ("Provider returned empty output while json_contract mode is enabled.") ∧
    parseOutput .text_plain ("hello") ≠
      .ok { outputText := ("hello"), toolCalls := [], finishReason := .stop } ∧
    parseOutput .text_plain ("") ≠
      .ok { outputText := (""), toolCalls := [], finishReason := .stop } := by
  have h1 : parseOutput .text_plain ("hello") =
      .error ("Unable to parse provider JSON output. Check responseCommand.output mode.") := rfl
  have h2 : parseOutput .text_plain ("") =
      .error ("Provider returned empty output while json_contract mode is enabled.") := rfl
  refine ⟨h1, h2, ?_, ?_⟩
  · rw [h1]
    simp
  · rw [h2]
    simp

/-! ## Fallback-chain lemmas and the C4/C5 theorems -/

theorem runModelGo_chain (models : List (String × ModelBinding))
    (oracle : String → Except String ProviderResult) :
    ∀ (fuel : Nat) (current : Option String) (attempted : List String)
      (events : List StatsEvent) (lastError : Option String),
      attempted.Nodup →
      List.Chain' (fallbackEdge models) attempted →
      (∀ c, current = some c → ∀ last, attempted.getLast? = some last →
        fallbackEdge models last c) →
      ((runModelGo models oracle fuel current attempted attempted events
          lastError).attempted = attempted ∨
        (∃ c suffix, current = some c ∧
          (runModelGo models oracle fuel current attempted attempted events
            lastError).attempted = attempted ++ c :: suffix)) ∧
      (runModelGo models oracle fuel current attempted attempted events
          lastError).attempted.Nodup ∧
      List.Chain' (fallbackEdge models)
        (runModelGo models oracle fuel current attempted attempted events
          lastError).attempted := by
  intro fuel
  induction fuel with
  | zero =>
    intro current attempted events lastError hnd hch _
    exact ⟨Or.inl rfl, hnd, hch⟩
  | succ fuel ih =>
    intro current attempted events lastError hnd hch hlink
    cases current with
    | none => exact ⟨Or.inl rfl, hnd, hch⟩
    | some c =>
      by_cases hm : c ∈ attempted
      · simp only [runModelGo]
        rw [if_pos hm]
        exact ⟨Or.inl rfl, hnd, hch⟩
      · have hnd1 : (attempted ++ [c]).Nodup := by
          simp [List.nodup_append, hnd, hm]
        have hch1 : List.Chain' (fallbackEdge models) (attempted ++ [c]) := by
          rw [List.chain'_append]
          refine ⟨hch, List.chain'_singleton c, ?_⟩
          intro x hx y hy
          simp only [List.head?_cons, Option.mem_def, Option.some.injEq] at hy
          subst hy
          exact hlink c rfl x hx
        simp only [runModelGo]
        rw [if_neg hm]
        split
        · exact ⟨Or.inr ⟨c, [], rfl, rfl⟩, hnd1, hch1⟩
        · rename_i binding hb
          split
          · exact ⟨Or.inr ⟨c, [], rfl, rfl⟩, hnd1, hch1⟩
          · rename_i e ho
            split
            · exact ⟨Or.inr ⟨c, [], rfl, rfl⟩, hnd1, hch1⟩
            · rename_i next hf
              have hlink1 : ∀ cn, some next = some cn →
                  ∀ last, (attempted ++ [c]).getLast? = some last →
                  fallbackEdge models last cn := by
                intro cn hcn last hlast
                cases hcn
                rw [List.getLast?_concat] at hlast
                cases hlast
                exact ⟨binding, hb, List.mem_of_find?_eq_some hf⟩
              have hred := ih (some next) (attempted ++ [c])
                (events ++ [.attempt c binding.providerId ((attempted ++ [c]).length - 1)] ++
                  [.failure c binding.providerId ((attempted ++ [c]).length - 1)
                    (classifyFailure e)] ++
                  [.fallback c next (classifyFailure e)]) (some e) hnd1 hch1 hlink1
              refine ⟨?_, hred.2.1, hred.2.2⟩
              rcases hred.1 with h | ⟨cn, s, hcn, h⟩
              · exact Or.inr ⟨c, [], rfl, h⟩
              · obtain rfl := Option.some.inj hcn
                refine Or.inr ⟨c, next :: s, rfl, ?_⟩
                exact h.trans (by rw [List.append_assoc]; rfl)

/-- C4: for every `runModel` call with initial model `M`, the sequence of
    attempted model ids is a simple path in the fallback graph starting at
    `M`: no id is attempted twice, the first attempted id is `M`, and each
    consecutive pair is an edge of the fallback graph. -/
theorem finishRun_attempted (st : ChainState) : (finishRun st).attempted = st.attempted := by
  rcases st with ⟨att, ev, out⟩
  cases out with
  | ok r => rfl
  | error lastErr =>
    simp only [finishRun]
    split <;> rfl

theorem runModel_simple_path (models : List (String × ModelBinding))
    (oracle : String → Except String ProviderResult) (modelId : String) :
    (runModel models oracle modelId).attempted.Nodup ∧
    ((runModel models oracle modelId).attempted ≠ [] →
      (runModel models oracle modelId).attempted.head? = some modelId) ∧
    List.Chain' (fallbackEdge models) (runModel models oracle modelId).attempted := by
  unfold runModel
  by_cases hk : (getAssoc models modelId).isNone = true
  · rw [if_pos hk]
    exact ⟨List.nodup_nil, fun h => absurd rfl h, List.chain'_nil⟩
  · rw [if_neg hk]
    have hlink : ∀ c, (some modelId = some c) → ∀ last,
        ([] : List String).getLast? = some last → fallbackEdge models last c := by
      intro c _ last hlast
      exact Option.noConfusion hlast
    have hall := runModelGo_chain models oracle (models.length + 1) (some modelId)
      [] [] none List.nodup_nil List.chain'_nil hlink
    rw [finishRun_attempted]
    refine ⟨hall.2.1, ?_, hall.2.2⟩
    intro hne
    rcases hall.1 with h | ⟨c, s, hc, h⟩
    · rw [h] at hne
      exact absurd rfl hne
    · obtain rfl := Option.some.inj hc
      rw [h]
      rfl

/-- Witness for C4 (the claim's cycle example): with fallback graph
    `A → B → A` and both models failing, the chain runs `A`, then `B`, then
    stops, and the thrown message contains the chain `"A -> B"`. -/
theorem runModel_simple_path_witness :
    (runModel
        [(("A"), ⟨("A"), ("A"), ("p"), [("B")]⟩), (("B"), ⟨("B"), ("B"), ("p"), [("A")]⟩)]
        (fun _ => .error ("boom")) ("A")).attempted = [("A"), ("B")] ∧
    (runModel
        [(("A"), ⟨("A"), ("A"), ("p"), [("B")]⟩), (("B"), ⟨("B"), ("B"), ("p"), [("A")]⟩)]
        (fun _ => .error ("boom")) ("A")).attempted.head? = some ("A") ∧
    (runModel
        [(("A"), ⟨("A"), ("A"), ("p"), [("B")]⟩), (("B"), ⟨("B"), ("B"), ("p"), [("A")]⟩)]
        (fun _ => .error ("boom")) ("A")).result =
      .error ("Model execution failed after fallback chain: A -> B.\nLast error: boom") ∧
    strContains ("Model execution failed after fallback chain: A -> B.\nLast error: boom")
      ("A -> B") = true := by
  have h1 : (runModel
      [(("A"), ⟨("A"), ("A"), ("p"), [("B")]⟩), (("B"), ⟨("B"), ("B"), ("p"), [("A")]⟩)]
      (fun _ => .error ("boom")) ("A")).attempted = [("A"), ("B")] := rfl
  refine ⟨h1, ?_, rfl, by decide⟩
  exact (runModel_simple_path
      [(("A"), ⟨("A"), ("A"), ("p"), [("B")]⟩), (("B"), ⟨("B"), ("B"), ("p"), [("A")]⟩)]
      (fun _ => .error ("boom")) ("A")).2.1 (by rw [h1]; simp)

/-- C5: a `runModel` call whose initial model id is not registered fails
    immediately with `"Unknown model: <id>"`, before any attempt is recorded
    and without consuming any fallback slot (no attempted id, no event);
    by contrast a dangling fallback id encountered mid-chain records one
    attempt and one `config`-kind failure for the missing id. -/
theorem runModel_unknown_initial (models : List (String × ModelBinding))
    (oracle : String → Except String ProviderResult) (modelId : String)
    (h : getAssoc models modelId = none) :
    runModel models oracle modelId =
      { result := .error (("Unknown model: ") ++ modelId), attempted := [], events := [] } ∧
    (runModel [(("A"), ⟨("A"), ("A"), ("p"), [("X")]⟩)] (fun _ => .error ("boom"))
        ("A")).events =
      [.attempt ("A") ("p") 0, .failure ("A") ("p") 0 .unknown,
       .fallback ("A") ("X") .unknown, .attempt ("X") ("unknown") 1,
       .failure ("X") ("unknown") 1 .config] ∧
    (runModel [(("A"), ⟨("A"), ("A"), ("p"), [("X")]⟩)] (fun _ => .error ("boom"))
        ("A")).attempted = [("A"), ("X")] := by
  refine ⟨?_, rfl, rfl⟩
  unfold runModel
  rw [h]
  rfl

/-- Witness for C5: an unregistered initial id on an empty registry throws
    `Unknown model: m` with nothing attempted or recorded. -/
theorem runModel_unknown_initial_witness :
    runModel [] (fun _ => .error ("e")) ("m") =
      { result := .error (("Unknown model: m")), attempted := [], events := [] } := by
  have h := (runModel_unknown_initial [] (fun _ => .error ("e")) ("m") rfl).1
  rw [h]
  rfl

/-! ## Job-manager lemmas and the C9/C10 theorems -/

theorem foldl_addUrl_mem_init (xs : List String) :
    ∀ (us : List String) (u : String), u ∈ us →
      u ∈ xs.foldl (fun acc url => if acc.contains url then acc else acc ++ [url]) us := by
  induction xs with
  | nil => intro us u h; exact h
  | cons x xs ih =>
    intro us u h
    simp only [List.foldl_cons]
    apply ih
    split
    · exact h
    · exact List.mem_append_left _ h

theorem foldl_addUrl_mem_elem (xs : List String) :
    ∀ (us : List String) (u : String), u ∈ xs →
      u ∈ xs.foldl (fun acc url => if acc.contains url then acc else acc ++ [url]) us := by
  induction xs with
  | nil => intro us u h; exact absurd h (List.not_mem_nil u)
  | cons x xs ih =>
    intro us u h
    simp only [List.foldl_cons]
    rcases List.mem_cons.mp h with rfl | h
    · apply foldl_addUrl_mem_init
      split
      · rename_i hc
        simpa using hc
      · exact List.mem_append_right _ (by simp)
    · exact ih _ u h

theorem foldl_addUrl_nodup (xs : List String) :
    ∀ us : List String, us.Nodup →
      (xs.foldl (fun acc url => if acc.contains url then acc else acc ++ [url]) us).Nodup := by
  induction xs with
  | nil => intro us h; exact h
  | cons x xs ih =>
    intro us h
    simp only [List.foldl_cons]
    apply ih
    split
    · exact h
    · rename_i hc
      have : x ∉ us := by simpa using hc
      simp [List.nodup_append, h, this]

theorem pushLog_urls_init (record : LoginJobRecord) (line : String) (u : String)
    (h : u ∈ record.urls) : u ∈ (pushLog record line).urls :=
  foldl_addUrl_mem_init _ _ _ h

theorem pushLog_urls_match (record : LoginJobRecord) (line : String) (u : String)
    (h : u ∈ urlMatches line) : u ∈ (pushLog record line).urls :=
  foldl_addUrl_mem_elem _ _ _ h

theorem pushLog_urls_nodup (record : LoginJobRecord) (line : String)
    (h : record.urls.Nodup) : (pushLog record line).urls.Nodup :=
  foldl_addUrl_nodup _ _ h

theorem pushLog_logs_of_cap (record : LoginJobRecord) (line : String)
    (h : record.logs.length + 1 ≤ record.maxLogLines) :
    (pushLog record line).logs = record.logs ++ [line] := by
  simp only [pushLog]
  rw [if_neg]
  simp only [List.length_append, List.length_cons, List.length_nil]
  omega

theorem pushFold_urls_init (stream : String) (lines : List String) :
    ∀ (record : LoginJobRecord) (u : String), u ∈ record.urls →
      u ∈ (lines.foldl (fun rec rawLine =>
        if jsTrim rawLine = ("") then rec
        else pushLog rec (("[") ++ stream ++ ("] ") ++ jsTrim rawLine)) record).urls := by
  induction lines with
  | nil => intro record u h; exact h
  | cons rawLine lines ih =>
    intro record u h
    simp only [List.foldl_cons]
    split
    · exact ih record u h
    · exact ih _ u (pushLog_urls_init _ _ _ h)

theorem pushFold_urls_line (stream : String) (lines : List String) :
    ∀ (record : LoginJobRecord) (rawLine : String), rawLine ∈ lines →
      jsTrim rawLine ≠ ("") →
      ∀ u ∈ urlMatches (("[") ++ stream ++ ("] ") ++ jsTrim rawLine),
        u ∈ (lines.foldl (fun rec rl =>
          if jsTrim rl = ("") then rec
          else pushLog rec (("[") ++ stream ++ ("] ") ++ jsTrim rl)) record).urls := by
  induction lines with
  | nil => intro record rawLine h; exact absurd h (List.not_mem_nil rawLine)
  | cons l lines ih =>
    intro record rawLine hmem hne u hu
    simp only [List.foldl_cons]
    rcases List.mem_cons.mp hmem with rfl | hmem
    · rw [if_neg hne]
      exact pushFold_urls_init stream lines _ u (pushLog_urls_match _ _ _ hu)
    · split
      · exact ih record rawLine hmem hne u hu
      · exact ih _ rawLine hmem hne u hu

theorem pushFold_urls_nodup (stream : String) (lines : List String) :
    ∀ record : LoginJobRecord, record.urls.Nodup →
      (lines.foldl (fun rec rawLine =>
        if jsTrim rawLine = ("") then rec
        else pushLog rec (("[") ++ stream ++ ("] ") ++ jsTrim rawLine)) record).urls.Nodup := by
  induction lines with
  | nil => intro record h; exact h
  | cons l lines ih =>
    intro record h
    simp only [List.foldl_cons]
    split
    · exact ih record h
    · exact ih _ (pushLog_urls_nodup _ _ h)

theorem pushFold_logs (stream : String) (lines : List String) :
    ∀ record : LoginJobRecord,
      record.logs.length + (lines.filterMap (fun rawLine =>
        if jsTrim rawLine = ("") then none
        else some (("[") ++ stream ++ ("] ") ++ jsTrim rawLine))).length ≤
          record.maxLogLines →
      (lines.foldl (fun rec rawLine =>
        if jsTrim rawLine = ("") then rec
        else pushLog rec (("[") ++ stream ++ ("] ") ++ jsTrim rawLine)) record).logs =
        record.logs ++ lines.filterMap (fun rawLine =>
          if jsTrim rawLine = ("") then none
          else some (("[") ++ stream ++ ("] ") ++ jsTrim rawLine)) := by
  induction lines with
  | nil => intro record _; simp
  | cons l lines ih =>
    intro record hcap
    by_cases hb : jsTrim l = ("")
    · have hfm : List.filterMap (fun rawLine => if jsTrim rawLine = ("") then none
            else some (("[") ++ stream ++ ("] ") ++ jsTrim rawLine)) (l :: lines) =
          List.filterMap (fun rawLine => if jsTrim rawLine = ("") then none
            else some (("[") ++ stream ++ ("] ") ++ jsTrim rawLine)) lines := by
        rw [List.filterMap_cons]
        simp [hb]
      rw [hfm] at hcap ⊢
      rw [List.foldl_cons, if_pos hb]
      exact ih record hcap
    · have hfm : List.filterMap (fun rawLine => if jsTrim rawLine = ("") then none
            else some (("[") ++ stream ++ ("] ") ++ jsTrim rawLine)) (l :: lines) =
          (("[") ++ stream ++ ("] ") ++ jsTrim l) ::
            List.filterMap (fun rawLine => if jsTrim rawLine = ("") then none
              else some (("[") ++ stream ++ ("] ") ++ jsTrim rawLine)) lines := by
        rw [List.filterMap_cons]
        simp [hb]
      rw [hfm] at hcap ⊢
      simp only [List.length_cons] at hcap
      have hstep : (pushLog record (("[") ++ stream ++ ("] ") ++ jsTrim l)).logs =
          record.logs ++ [("[") ++ stream ++ ("] ") ++ jsTrim l] :=
        pushLog_logs_of_cap record _ (by omega)
      have hmax : (pushLog record (("[") ++ stream ++ ("] ") ++ jsTrim l)).maxLogLines =
          record.maxLogLines := rfl
      rw [List.foldl_cons, if_neg hb]
      rw [ih _ (by rw [hstep, hmax]; simp only [List.length_append, List.length_cons,
        List.length_nil]; omega), hstep, List.append_assoc]
      rfl

/-- C9: pushing a chunk of stdout/stderr output pushes each non-blank trimmed
    line to `logs` prefixed with the stream tag (`[stdout] ` / `[stderr] `,
    shown here under the no-eviction hypothesis that the ring buffer has
    room), appends to `urls` every substring of an appended line matching
    `/https?:\/\/[^\s]+/gi` — exactly once, since a URL already present is
    not re-added (membership in `urls` stays duplicate-free) — and never
    removes a previously captured URL. -/
theorem pushChunk_spec (record : LoginJobRecord) (stream chunk : String) :
    (record.logs.length + (chunkEntries stream chunk).length ≤ record.maxLogLines →
      (pushChunk record stream chunk).logs = record.logs ++ chunkEntries stream chunk) ∧
    (∀ u ∈ record.urls, u ∈ (pushChunk record stream chunk).urls) ∧
    (∀ rawLine ∈ splitLines chunk, jsTrim rawLine ≠ ("") →
      ∀ u ∈ urlMatches (("[") ++ stream ++ ("] ") ++ jsTrim rawLine),
        u ∈ (pushChunk record stream chunk).urls) ∧
    (record.urls.Nodup → (pushChunk record stream chunk).urls.Nodup) := by
  unfold pushChunk chunkEntries
  exact ⟨pushFold_logs stream (splitLines chunk) record,
    fun u hu => pushFold_urls_init stream (splitLines chunk) record u hu,
    fun rawLine hmem hne u hu => pushFold_urls_line stream (splitLines chunk) record
      rawLine hmem hne u hu,
    pushFold_urls_nodup stream (splitLines chunk) record⟩

/-- Witness for C9 (the claim's login scenario): a child writing
    `Visit https://auth.example/activate?user_code=ABCD` to stderr leaves that
    URL in `urls` and the prefixed line in `logs`. -/
theorem pushChunk_spec_witness :
    ("https://auth.example/activate?user_code=ABCD") ∈
      (pushChunk ⟨[], [], 300⟩ ("stderr")
        ("Visit https://auth.example/activate?user_code=ABCD\n")).urls ∧
    (pushChunk ⟨[], [], 300⟩ ("stderr")
        ("Visit https://auth.example/activate?user_code=ABCD\n")).logs =
      [("[stderr] Visit https://auth.example/activate?user_code=ABCD")] := by
  constructor
  · exact (pushChunk_spec ⟨[], [], 300⟩ ("stderr")
        ("Visit https://auth.example/activate?user_code=ABCD\n")).2.2.1
      ("Visit https://auth.example/activate?user_code=ABCD") (by decide) (by decide)
      ("https://auth.example/activate?user_code=ABCD") (by decide)
  · have h := (pushChunk_spec ⟨[], [], 300⟩ ("stderr")
        ("Visit https://auth.example/activate?user_code=ABCD\n")).1 (by decide)
    rw [h]
    rfl

theorem length_insertByStartedAtDesc {α : Type} (key : α → String) (x : α)
    (l : List α) : (insertByStartedAtDesc key x l).length = l.length + 1 := by
  induction l with
  | nil => rfl
  | cons y rest ih =>
    simp only [insertByStartedAtDesc]
    split
    · rfl
    · simp [ih]

theorem length_sortByStartedAtDesc {α : Type} (key : α → String) (l : List α) :
    (sortByStartedAtDesc key l).length = l.length := by
  induction l with
  | nil => rfl
  | cons x rest ih =>
    simp only [sortByStartedAtDesc]
    rw [length_insertByStartedAtDesc, ih]
    rfl

/-- C10 (implicit): for every job store holding at least one job,
    `listJobs(limit)` returns a non-empty list even when `limit` is zero or
    negative, because the slice bound is clamped to a minimum of 1; the
    returned length is `min (max 1 limit) (number of jobs)`. -/
theorem listJobs_clamped {α : Type} (key : α → String) (jobs : List α) (limit : Int)
    (h : jobs ≠ []) :
    listJobs key jobs limit ≠ [] ∧
    (listJobs key jobs limit).length = min (max 1 limit).toNat jobs.length := by
  have hlen : (listJobs key jobs limit).length =
      min (max 1 limit).toNat jobs.length := by
    unfold listJobs
    rw [List.length_take, length_sortByStartedAtDesc]
  refine ⟨?_, hlen⟩
  intro hnil
  rw [hnil] at hlen
  have h1 : (1 : Int) ≤ max 1 limit := le_max_left 1 limit
  have h2 : 1 ≤ (max 1 limit).toNat := by omega
  have h3 : 0 < jobs.length := List.length_pos.mpr h
  simp only [List.length_nil] at hlen
  omega

/-- Witness for C10: one job and `limit = -3` still lists that job. -/
theorem listJobs_clamped_witness :
    listJobs (fun s : String => s) [("j1")] (-3) ≠ [] ∧
    listJobs (fun s : String => s) [("j1")] (-3) = [("j1")] := by
  refine ⟨(listJobs_clamped (fun s : String => s) [("j1")] (-3) (by decide)).1, rfl⟩

/-! ## Declared-tool post-processing lemmas and the C3 theorem -/

theorem setAssoc_mem {α : Type} {l : List (String × α)} {k : String} {v : α}
    {p : String × α} (h : p ∈ setAssoc l k v) : p ∈ l ∨ p = (k, v) := by
  unfold setAssoc at h
  split at h
  · obtain ⟨q, hq, hpq⟩ := List.mem_map.mp h
    by_cases hk : q.1 = k
    · right
      rw [← hpq]
      simp [hk]
    · left
      rw [← hpq]
      simpa [hk] using hq
  · rcases List.mem_append.mp h with h1 | h2
    · exact Or.inl h1
    · right
      simpa using h2

theorem getAssoc_mem {α : Type} {l : List (String × α)} {k : String} {v : α}
    (h : getAssoc l k = some v) : ∃ p ∈ l, p.2 = v := by
  unfold getAssoc at h
  cases hf : l.find? (fun p => p.1 = k) with
  | none => rw [hf] at h; exact Option.noConfusion h
  | some p =>
    rw [hf] at h
    exact ⟨p, List.mem_of_find?_eq_some hf, by injection h⟩

theorem extractAllowedTools_foldl_origin (us : List UnifiedToolDefinition) :
    ∀ (init : List (String × AllowedToolMeta)) (p : String × AllowedToolMeta),
      p ∈ us.foldl (fun out item =>
        if item.type ≠ ("function") then out
        else
          let name := jsTrim item.fname
          if name = ("") then out
          else
            setAssoc out (normalizeToolName name)
              { name := name, argumentKeyMap := buildArgumentKeyMap item.parameters }) init →
      p ∈ init ∨ ∃ t ∈ us, t.type = ("function") ∧ jsTrim t.fname ≠ ("") ∧
        p.2.name = jsTrim t.fname := by
  induction us with
  | nil => intro init p h; exact Or.inl h
  | cons t ts ih =>
    intro init p h
    simp only [List.foldl_cons] at h
    rcases ih _ p h with hstep | ⟨t', ht', h1, h2, h3⟩
    · by_cases hty : t.type = ("function")
      · by_cases hnm : jsTrim t.fname = ("")
        · simp only [hty, hnm, ne_eq, not_true_eq_false, if_false, if_true] at hstep
          exact Or.inl hstep
        · simp only [hty, hnm, ne_eq, not_true_eq_false, if_false] at hstep
          rcases setAssoc_mem hstep with hin | heq
          · exact Or.inl hin
          · right
            exact ⟨t, List.mem_cons_self t ts, hty, hnm, by rw [heq]⟩
      · simp only [ne_eq, hty, not_false_eq_true, if_true] at hstep
        exact Or.inl hstep
    · right
      exact ⟨t', List.mem_cons_of_mem t ht', h1, h2, h3⟩

theorem extractAllowedTools_origin {ts : List UnifiedToolDefinition}
    {k : String} {meta : AllowedToolMeta}
    (h : getAssoc (extractAllowedTools ts) k = some meta) :
    ∃ t ∈ ts, t.type = ("function") ∧ jsTrim t.fname ≠ ("") ∧
      meta.name = jsTrim t.fname := by
  obtain ⟨p, hp, hpv⟩ := getAssoc_mem h
  rcases extractAllowedTools_foldl_origin ts [] p hp with hin | ⟨t, ht, h1, h2, h3⟩
  · exact absurd hin (List.not_mem_nil p)
  · exact ⟨t, ht, h1, h2, by rw [← hpv]; exact h3⟩

/-- C3: for every parsed result and declared tool set, post-processing drops
    every tool call whose normalized name is not among the declared tools'
    normalized names, rewrites every surviving call's name to the canonical
    declared (trimmed) name, downgrades `finishReason` from `tool_calls` to
    `stop` when calls existed and all were dropped, and drops all calls when
    the declared tool set is empty. -/
theorem normalizeResultToolCalls_spec (r : ProviderResult)
    (ts : List UnifiedToolDefinition) :
    (ts = [] → (normalizeResultToolCalls r ts).toolCalls = []) ∧
    (∀ c ∈ (normalizeResultToolCalls r ts).toolCalls,
      ∃ c0 ∈ r.toolCalls, ∃ meta : AllowedToolMeta,
        getAssoc (extractAllowedTools ts) (normalizeToolName c0.name) = some meta ∧
        c.name = meta.name ∧
        ∃ t ∈ ts, t.type = ("function") ∧ jsTrim t.fname = c.name) ∧
    ((∀ c0 ∈ r.toolCalls,
        getAssoc (extractAllowedTools ts) (normalizeToolName c0.name) = none) →
      (normalizeResultToolCalls r ts).toolCalls = []) ∧
    (r.toolCalls ≠ [] → (normalizeResultToolCalls r ts).toolCalls = [] →
      r.finishReason = .tool_calls →
      (normalizeResultToolCalls r ts).finishReason = .stop) := by
  by_cases hrc : r.toolCalls.isEmpty
  · have hnil : r.toolCalls = [] := by simpa using hrc
    simp only [normalizeResultToolCalls, hrc, if_true]
    exact ⟨fun _ => hnil, fun c hc => by rw [hnil] at hc; simp at hc,
      fun _ => hnil, fun hne _ _ => absurd hnil hne⟩
  · by_cases hal : (extractAllowedTools ts).isEmpty
    · simp only [normalizeResultToolCalls, hrc, hal, if_true, if_false, Bool.false_eq_true]
      refine ⟨fun _ => trivial, fun c hc => by simp at hc, fun _ => trivial,
        fun _ _ hfr => ?_⟩
      simp [hfr]
    · simp only [normalizeResultToolCalls, hrc, hal, if_false, Bool.false_eq_true]
      refine ⟨?_, ?_, ?_, ?_⟩
      · intro hts
        subst hts
        exact absurd rfl hal
      · intro c hc
        obtain ⟨c0, hc0, hf⟩ := List.mem_filterMap.mp hc
        cases hm : getAssoc (extractAllowedTools ts) (normalizeToolName c0.name) with
        | none => rw [hm] at hf; simp at hf
        | some meta =>
          rw [hm] at hf
          simp only [Option.some.injEq] at hf
          obtain ⟨t, ht, h1, h2, h3⟩ := extractAllowedTools_origin hm
          refine ⟨c0, hc0, meta, hm, by rw [← hf], t, ht, h1, ?_⟩
          rw [← hf]
          simp [← h3]
      · intro hall
        refine List.filterMap_eq_nil_iff.mpr (fun c0 hc0 => ?_)
        rw [hall c0 hc0]
      · intro hne hmap hfr
        simp [hmap, hfr]

/-- Witness for C3: with one declared tool `searchDocs` and one emitted call
    named `unknown_tool`, every call drops and the `tool_calls` finish reason
    downgrades to `stop`. -/
theorem normalizeResultToolCalls_spec_witness :
    (normalizeResultToolCalls
      { outputText := ("")
        toolCalls := [{ id := ("c2"), name := ("unknown_tool"), arguments := ("\x7b\x7d") }]
        finishReason := .tool_calls }
      [{ type := ("function"), fname := ("searchDocs"), parameters := none }]).finishReason =
      .stop := by
  refine (normalizeResultToolCalls_spec
      { outputText := ("")
        toolCalls := [{ id := ("c2"), name := ("unknown_tool"), arguments := ("\x7b\x7d") }]
        finishReason := .tool_calls }
      [{ type := ("function"), fname := ("searchDocs"), parameters := none }]).2.2.2
    (by simp) ?_ rfl
  exact (normalizeResultToolCalls_spec
      { outputText := ("")
        toolCalls := [{ id := ("c2"), name := ("unknown_tool"), arguments := ("\x7b\x7d") }]
        finishReason := .tool_calls }
      [{ type := ("function"), fname := ("searchDocs"), parameters := none }]).2.2.1
    (by intro c0 hc0; simp at hc0; rw [hc0]; rfl)

/-- Witness for C7: a model with 100 consecutive rate-limit failures, last
    failing at t=1000000 and inspected at t=1060000, gets the multiplier
    capped at 8: cooldown `ceil((1000000 + 60*1000*8 - 1060000)/1000) = 420`. -/
theorem computeCooldown_formula_witness :
    computeCooldown
      { lastFailureKind := some .rate_limited
        lastFailureAtMs := 1000000
        consecutiveFailures := 100
        consecutiveRateLimitedFailures := 100
        consecutiveCapacityExhaustedFailures := 0
        consecutiveQuotaExhaustedFailures := 0 } 1060000 = 420 := by
  have h := computeCooldown_formula
      { lastFailureKind := some .rate_limited
        lastFailureAtMs := 1000000
        consecutiveFailures := 100
        consecutiveRateLimitedFailures := 100
        consecutiveCapacityExhaustedFailures := 0
        consecutiveQuotaExhaustedFailures := 0 } 1060000 .rate_limited rfl
      (by decide) (by decide)
  rw [h]
  rfl

end Gateway
